import Mathlib

/-!
Verification of the zipper-over-rose-tree library (`zipper.hpp`, `test.cpp`).

The C++ `node<T>` stores a value, a `std::vector` of child nodes and a raw
parent pointer; `zipper<T>` owns the root node and a cursor pointer to the
current node.  The shallow embedding below abstracts the cursor as the list of
child indices from the root to the focused node (`zipper.path`); the parent
pointer of a focused node is then the node at `path.dropLast`.  Exceptions are
modelled with `Except`, the error value carrying the zipper state left behind
by the throwing call.  A separate address-level heap model (further below)
captures the raw-pointer representation where vector reallocation matters.
-/

/-- Error kinds raised by the zipper (`std::runtime_error` messages in the
source): moving up from the root, and `step_forward` with a bad index. -/
inductive zerror where
  | cannotStepBack
  | invalidBranch
deriving DecidableEq

/-- The tree node: `value` and ordered `children`, as in `class node`.
The parent pointer is not stored; it is recovered from the position of the
node in the tree (see `zipper.path`). -/
inductive node (α : Type) where
  | mk (value : α) (children : List (node α))

/-- Projection corresponding to the `value` member of `node`. -/
def node.value {α : Type} : node α → α
  | node.mk v _ => v

/-- Projection corresponding to the `children` member of `node`. -/
def node.children {α : Type} : node α → List (node α)
  | node.mk _ cs => cs

/-- Navigate from a node along a list of child indices. -/
def node.sub {α : Type} : node α → List Nat → Option (node α)
  | n, [] => some n
  | n, i :: p =>
    match (node.children n)[i]? with
    | some c => node.sub c p
    | none => none

/-- Replace the element at an index of a list by applying a function. -/
def modifyAt {α : Type} : List α → Nat → (α → α) → List α
  | [], _, _ => []
  | b :: bs, 0, f => f b :: bs
  | b :: bs, k + 1, f => b :: modifyAt bs k f

/-- `node::emplace_branch` performed at the node addressed by a path:
append a fresh leaf child built from the value at the end of `children`. -/
def node.appendAt {α : Type} : node α → List Nat → α → node α
  | node.mk v cs, [], x => node.mk v (cs ++ [node.mk x []])
  | node.mk v cs, i :: p, x => node.mk v (modifyAt cs i (fun c => node.appendAt c p x))

/-- The zipper: the owned root tree plus the cursor, abstracted as the list of
child indices leading from the root to the current node. -/
structure zipper (α : Type) where
  root : node α
  path : List Nat

/-- The node the cursor points at (`current` in the source). -/
def zipper.focus {α : Type} (z : zipper α) : Option (node α) :=
  node.sub z.root z.path

/-- A zipper state is valid when its cursor path addresses a node; this is the
counterpart of the C++ guarantee that `current` is a live pointer. -/
def zipper.valid {α : Type} (z : zipper α) : Bool :=
  (zipper.focus z).isSome

/-- `current->children` of the source; empty list on an invalid cursor. -/
def zipper.focusChildren {α : Type} (z : zipper α) : List (node α) :=
  match zipper.focus z with
  | some n => node.children n
  | none => []

/-- `zipper::can_step_back`: `current->parent != nullptr`, i.e. the cursor is
not at the root. -/
def zipper.can_step_back {α : Type} (z : zipper α) : Bool :=
  ! z.path.isEmpty

/-- `zipper::step_back()`: throw `CannotStepBack` at the root, else move the
cursor to its parent (drop the last path component). -/
def zipper.step_back {α : Type} (z : zipper α) : Except (zerror × zipper α) (zipper α) :=
  if zipper.can_step_back z then Except.ok ⟨z.root, z.path.dropLast⟩
  else Except.error (zerror.cannotStepBack, z)

/-- The loop body of `zipper::step_back(int n)`: apply `step_back` a number of
times, propagating the first error together with the state reached so far. -/
def stepBackIter {α : Type} : zipper α → Nat → Except (zerror × zipper α) (zipper α)
  | z, 0 => Except.ok z
  | z, k + 1 =>
    match zipper.step_back z with
    | Except.ok z1 => stepBackIter z1 k
    | Except.error e => Except.error e

/-- `zipper::step_back(int n)`: `for (int i = 0; i < n; ++i) step_back();`
runs `n` iterations for positive `n` and none for `n ≤ 0`. -/
def zipper.step_back_n {α : Type} (z : zipper α) (n : Int) : Except (zerror × zipper α) (zipper α) :=
  stepBackIter z n.toNat

/-- `zipper::step_forward(int branch)`: reject negative indices, then indices
not below the number of children; otherwise move into that child. -/
def zipper.step_forward {α : Type} (z : zipper α) (branch : Int) : Except (zerror × zipper α) (zipper α) :=
  if branch < 0 then Except.error (zerror.invalidBranch, z)
  else if ((zipper.focusChildren z).length : Int) ≤ branch then
    Except.error (zerror.invalidBranch, z)
  else Except.ok ⟨z.root, z.path ++ [branch.toNat]⟩

/-- `zipper::entre_new_branch`: emplace a child at the current node, then move
the cursor to `children.back()`, whose index is the previous child count. -/
def zipper.entre_new_branch {α : Type} (z : zipper α) (v : α) : zipper α :=
  ⟨node.appendAt z.root z.path v, z.path ++ [(zipper.focusChildren z).length]⟩

/-- The runtime loop of `node::fold_children`:
`for (auto v : children) res = f(v.value, res);`.  Only the loop is
modelled: before it runs, the source computes
`RetType = decltype(f(children[0], init))` — the callback applied to a child
node rather than to a value (its own comment reads `Folder ~= Node -> Acc ->
Acc`) — and `static_assert`s that `Acc` and `RetType` inter-convert, so a
value-level callback such as the one the loop body expects fails to
instantiate before the loop is ever reached (the spec's §9.3 flags this
signature clash).  This definition is therefore the loop's semantics in
isolation, the behavior the spec declares intended, not a compilable whole. -/
def node.fold_children {α β : Type} (n : node α) (f : α → β → β) (init : β) : β :=
  (node.children n).foldl (fun acc c => f (node.value c) acc) init

/-- `zipper::fold_children` delegates to the focused node. -/
def zipper.fold_children {α β : Type} (z : zipper α) (f : α → β → β) (init : β) : β :=
  match zipper.focus z with
  | some n => node.fold_children n f init
  | none => init

/-- One output line is a text fragment followed by this terminator
(`std::endl`). -/
def lineEnd : String := "\n"

/-- `std::setw(w)` before inserting a value: right-align the textual form in a
field of `w` characters, padding with spaces; never truncates. -/
def rightAlign (s : String) (w : Nat) : String :=
  if s.length < w then String.mk (List.replicate (w - s.length) ' ') ++ s else s

mutual

/-- `node::printTree(output, depth)`: emit the value under `setw(depth*4)` and
a line end, then recurse into the children with `depth + 1`.  The `sh`
argument models `operator<<` for the value type.  The returned string is the
whole byte sequence written to the stream. -/
def node.printTree {α : Type} (sh : α → String) : node α → Nat → String
  | node.mk v cs, depth =>
    rightAlign (sh v) (depth * 4) ++ lineEnd ++ node.printTreeList sh cs (depth + 1)

/-- The `for (auto ch : children) ch.printTree(output, depth + 1);` loop. -/
def node.printTreeList {α : Type} (sh : α → String) : List (node α) → Nat → String
  | [], _ => ""
  | c :: cs, depth => node.printTree sh c depth ++ node.printTreeList sh cs depth

end

/-- `zipper::printTree(output)`: print from the root at depth 0. -/
def zipper.printTree {α : Type} (z : zipper α) (sh : α → String) : String :=
  node.printTree sh z.root 0

/-- Concatenation of a list of output fragments. -/
def concatAll : List String → String
  | [] => ""
  | s :: ss => s ++ concatAll ss

mutual

/-- Modelled from the spec (refinement side for the pretty-printer): the list
of (depth, value) pairs in the order in which the spec says the nodes are
visited — pre-order, children in child order at depth one more. -/
def node.preorderSpec {α : Type} : node α → Nat → List (Nat × α)
  | node.mk v cs, d => (d, v) :: node.preorderSpecList cs (d + 1)

/-- Pre-order visit of a forest at one depth, in child order. -/
def node.preorderSpecList {α : Type} : List (node α) → Nat → List (Nat × α)
  | [], _ => []
  | c :: cs, d => node.preorderSpec c d ++ node.preorderSpecList cs d

end

/-- Modelled from the spec: one emitted line — the value right-aligned to a
field of `depth * 4` characters, followed by a line terminator. -/
def fmtLine {α : Type} (sh : α → String) (dv : Nat × α) : String :=
  rightAlign (sh dv.2) (dv.1 * 4) ++ lineEnd

/-- Modelled from the spec: the whole output is the formatted line of every
node in pre-order. -/
def printTreeSpec {α : Type} (sh : α → String) (n : node α) : String :=
  concatAll ((node.preorderSpec n 0).map (fmtLine sh))

/-- `node::find_branch` exactly as written: the lambda passed to
`std::find_if` evaluates `p(n.value)` but does not return the boolean, so the
search can never observe a successful test and always reaches `children.end()`
(the spec's §9 calls this out: the source never reports a match).  The
evaluate-and-discard lambda is rendered as a test that is always `false`. -/
def node.find_branch_asWritten {α : Type} (n : node α) (p : α → Bool) : Int :=
  match (node.children n).findIdx? (fun c => let _ := p (node.value c); false) with
  | some i => (i : Int)
  | none => -1

/-- One iteration of the demo loop in `test.cpp`: `step_back(5)` when
`i % 6 == 5`, else `entre_new_branch(i)`. -/
def demoStep (z : zipper Int) (i : Nat) : Except (zerror × zipper Int) (zipper Int) :=
  if i % 6 == 5 then zipper.step_back_n z 5
  else Except.ok (zipper.entre_new_branch z (i : Int))

/-- `zipper<int> z(-1);` — the root carries -1, the cursor is on the root. -/
def demoInit : zipper Int := ⟨node.mk (-1) [], []⟩

/-- The whole demo loop `for (int i = 0; i < 26; ++i) ...` of `test.cpp`,
with a thrown exception aborting the remaining iterations. -/
def demoRun : Except (zerror × zipper Int) (zipper Int) :=
  List.foldlM demoStep demoInit (List.range 26)

/-- Decide whether a run finished without an exception. -/
def runOk {ε β : Type} : Except ε β → Bool
  | Except.ok _ => true
  | Except.error _ => false

/-- Address-level model of one `node<int>` object for the raw-pointer
representation: the stored value, the raw parent pointer (`none` = `nullptr`),
and the `std::vector<node>` header — base address of the element buffer,
capacity, and size.  Children live at addresses `buf, buf+1, …, buf+size-1`. -/
structure memCell where
  value : Int
  parent : Option Nat
  buf : Nat
  cap : Nat
  size : Nat
deriving DecidableEq

/-- Look an address up among the live cells. -/
def hfind : List (Nat × memCell) → Nat → Option memCell
  | [], _ => none
  | (a, c) :: rest, b => if a = b then some c else hfind rest b

/-- Overwrite the cell at an address. -/
def hupdate : List (Nat × memCell) → Nat → memCell → List (Nat × memCell)
  | [], _, _ => []
  | (a, c) :: rest, b, c1 =>
    if a = b then (a, c1) :: rest else (a, c) :: hupdate rest b c1

/-- End the lifetime of the cell at an address. -/
def herase : List (Nat × memCell) → Nat → List (Nat × memCell)
  | [], _ => []
  | (a, c) :: rest, b => if a = b then rest else (a, c) :: herase rest b

/-- Begin the lifetime of a cell at an address. -/
def hinsert (h : List (Nat × memCell)) (a : Nat) (c : memCell) : List (Nat × memCell) :=
  (a, c) :: herase h a

/-- Move-construct the first `count` vector elements from the old buffer into
the new one, then destroy the sources: each moved node keeps its fields
verbatim — in particular its own children buffer, whose elements still name
the old element address as their parent. -/
def moveRange (cells : List (Nat × memCell)) (oldBuf newBuf : Nat) : Nat → List (Nat × memCell)
  | 0 => cells
  | k + 1 =>
    let cells1 := moveRange cells oldBuf newBuf k
    match hfind cells1 (oldBuf + k) with
    | some c => hinsert (herase cells1 (oldBuf + k)) (newBuf + k) c
    | none => cells1

/-- The heap-level machine state: live cells keyed by address, a bump
allocator, and the cursor (`current`) as a raw address.  The root node lives
inside the zipper object itself, at its fixed address. -/
structure heapState where
  cells : List (Nat × memCell)
  nextAlloc : Nat
  cursor : Nat

/-- `node::emplace_branch` on the node at address `a`:
`children.emplace_back(this, v)`.  Within capacity, the new element is
constructed at `buf + size`; otherwise the vector allocates a fresh buffer,
move-constructs the old elements there and constructs the new element at the
end — the relocated siblings' addresses change, but nothing rewrites the
parent pointers held by their own children. -/
def heapEmplace (s : heapState) (a : Nat) (v : Int) : heapState :=
  match hfind s.cells a with
  | none => s
  | some c =>
    if c.size < c.cap then
      { cells :=
          hinsert (hupdate s.cells a
            { value := c.value, parent := c.parent, buf := c.buf, cap := c.cap,
              size := c.size + 1 })
            (c.buf + c.size)
            { value := v, parent := some a, buf := 0, cap := 0, size := 0 },
        nextAlloc := s.nextAlloc, cursor := s.cursor }
    else
      let newCap := if c.cap = 0 then 1 else 2 * c.cap
      let newBuf := s.nextAlloc
      let moved := moveRange s.cells c.buf newBuf c.size
      let withNew := hinsert moved (newBuf + c.size)
        { value := v, parent := some a, buf := 0, cap := 0, size := 0 }
      { cells :=
          hupdate withNew a
            { value := c.value, parent := c.parent, buf := newBuf, cap := newCap,
              size := c.size + 1 },
        nextAlloc := newBuf + newCap, cursor := s.cursor }

/-- `zipper::entre_new_branch(v)` at heap level: emplace at the cursor, then
point the cursor at `current->children.back()`. -/
def heapEnter (s : heapState) (v : Int) : heapState :=
  let s1 := heapEmplace s s.cursor v
  match hfind s1.cells s.cursor with
  | some c => { cells := s1.cells, nextAlloc := s1.nextAlloc, cursor := c.buf + c.size - 1 }
  | none => s1

/-- `zipper::step_back()` at heap level: follow the parent pointer of the cell
the cursor names (identity when the pointer is null or dangling). -/
def heapStepBack (s : heapState) : heapState :=
  match hfind s.cells s.cursor with
  | some c =>
    match c.parent with
    | some p => { cells := s.cells, nextAlloc := s.nextAlloc, cursor := p }
    | none => s
  | none => s

/-- Parent back-references are correct: every live cell with a non-null parent
pointer names a live cell whose children buffer contains this cell's address. -/
def parentOk (cells : List (Nat × memCell)) : Bool :=
  cells.all fun ac =>
    match ac.2.parent with
    | none => true
    | some p =>
      match hfind cells p with
      | none => false
      | some pc => decide (pc.buf ≤ ac.1) && decide (ac.1 < pc.buf + pc.size)

/-- `zipper<int> z(0);` — the root cell lives at address 0 inside the zipper
object; its children vector is empty with null buffer. -/
def c2state0 : heapState :=
  ⟨[(0, { value := 0, parent := none, buf := 0, cap := 0, size := 0 })], 1, 0⟩

/-- `z.entre_new_branch(1); z.entre_new_branch(2); z.step_back(); z.step_back();`
— a child holding 1 with a grandchild holding 2, cursor back on the root. -/
def c2afterFour : heapState :=
  heapStepBack (heapStepBack (heapEnter (heapEnter c2state0 1) 2))

/-- The final `z.entre_new_branch(3)`: the root's children vector is full
(size 1 = capacity 1), so it reallocates and the node holding 1 moves. -/
def c2final : heapState := heapEnter c2afterFour 3

/-- The tree the demo loop of `test.cpp` actually builds: four complete chains
of five nodes and the final chain `24, 25`, all hanging off the root `-1`. -/
def scenarioBTree : node Int :=
  node.mk (-1)
    [node.mk 0 [node.mk 1 [node.mk 2 [node.mk 3 [node.mk 4 []]]]],
     node.mk 6 [node.mk 7 [node.mk 8 [node.mk 9 [node.mk 10 []]]]],
     node.mk 12 [node.mk 13 [node.mk 14 [node.mk 15 [node.mk 16 []]]]],
     node.mk 18 [node.mk 19 [node.mk 20 [node.mk 21 [node.mk 22 []]]]],
     node.mk 24 [node.mk 25 []]]

theorem modifyAt_get_self {α : Type} (f : α → α) :
    ∀ (l : List α) (i : Nat), (modifyAt l i f)[i]? = (l[i]?).map f := by
  intro l
  induction l with
  | nil => intro i; simp [modifyAt]
  | cons b bs ih =>
    intro i
    cases i with
    | zero => simp [modifyAt]
    | succ k => simpa [modifyAt] using ih k

theorem node.sub_append {α : Type} (p : List Nat) (i : Nat) :
    ∀ n : node α,
      node.sub n (p ++ [i]) = (node.sub n p).bind (fun m => (node.children m)[i]?) := by
  induction p with
  | nil =>
    intro n
    cases h : (node.children n)[i]? <;> simp [node.sub, h]
  | cons j q ih =>
    intro n
    cases h : (node.children n)[j]? <;> simp [node.sub, h, ih]

theorem node.sub_appendAt {α : Type} (x : α) :
    ∀ (p : List Nat) (n f : node α), node.sub n p = some f →
      node.sub (node.appendAt n p x) p =
        some (node.mk (node.value f) (node.children f ++ [node.mk x []])) := by
  intro p
  induction p with
  | nil =>
    intro n f hf
    cases n with
    | mk v cs =>
      simp only [node.sub, Option.some.injEq] at hf
      subst hf
      simp [node.appendAt, node.sub, node.value, node.children]
  | cons j q ih =>
    intro n f hf
    cases n with
    | mk v cs =>
      simp only [node.sub, node.children] at hf ⊢
      cases hj : cs[j]? with
      | none => rw [hj] at hf; cases hf
      | some c =>
        rw [hj] at hf
        simp only [node.appendAt, node.children]
        rw [modifyAt_get_self]
        rw [hj]
        simpa using ih c f hf

theorem snoc_isEmpty_false {α : Type} (l : List α) (a : α) : (l ++ [a]).isEmpty = false := by
  cases l <;> simp [List.isEmpty]

theorem concatAll_append (xs ys : List String) :
    concatAll (xs ++ ys) = concatAll xs ++ concatAll ys := by
  induction xs with
  | nil =>
    show concatAll ys = concatAll [] ++ concatAll ys
    simp [concatAll]
  | cons s xs ih =>
    show concatAll (s :: (xs ++ ys)) = concatAll (s :: xs) ++ concatAll ys
    simp only [concatAll, ih, String.append_assoc]

/-- Claim C1 (code bug exhibit): on a node with children valued 10, 20, 30 and
the predicate testing for 20, the find as written in the source returns the
not-found sentinel -1 even though the predicate holds at child index 1 and
fails at every earlier index — the claim instead requires the result 1. -/
theorem c1_find_branch_never_reports_match :
    node.find_branch_asWritten
        (node.mk (0 : Int) [node.mk 10 [], node.mk 20 [], node.mk 30 []])
        (fun v => v == 20) = -1 ∧
    (fun v : Int => v == 20) (node.value (node.mk (10 : Int) [])) = false ∧
    (fun v : Int => v == 20) (node.value (node.mk (20 : Int) [])) = true := by
  exact ⟨rfl, rfl, rfl⟩

/-- Claim C2 (code bug exhibit): in the heap model of the raw-pointer
representation, the parent back-references are all correct after building the
chain 0 → 1 → 2 and stepping back to the root, but the next
`entre_new_branch(3)` makes the root's full children vector reallocate and the
grandchild holding 2 is left naming the freed old buffer slot as its parent;
the cursor itself still names a live cell. -/
theorem c2_parent_dangles_after_regrow :
    parentOk c2afterFour.cells = true ∧
    parentOk c2final.cells = false ∧
    (hfind c2final.cells c2final.cursor).isSome = true := by
  exact ⟨rfl, rfl, rfl⟩

/-- Claim C3 (counterexample): the demo loop of `test.cpp` finishes without
any exception — every `step_back(5)` call happens with the cursor exactly five
levels deep, so none of them fails with CannotStepBack, contrary to the claim
that at least one must fail. -/
theorem c3_no_step_back_failure : runOk demoRun = true := by
  exact rfl

/-- Claim C3 (amended): the demo loop completes normally, no `step_back(5)`
call fails, and the final state is the consistent tree of four complete
chains 0-4, 6-10, 12-16, 18-22 plus the chain 24, 25 under the root -1, with
the cursor on the node holding 25. -/
theorem c3_scenarioB_completes :
    demoRun = Except.ok ⟨scenarioBTree, [4, 0]⟩ := by
  exact rfl

/-- Claim C10: `step_back(n)` with a negative `n` runs the loop zero times:
no error is raised and the state is returned unchanged, exactly as for the
no-op `n = 0`. -/
theorem c10_step_back_negative {α : Type} (z : zipper α) (n : Int) (h : n < 0) :
    zipper.step_back_n z n = Except.ok z ∧
    zipper.step_back_n z n = zipper.step_back_n z 0 := by
  have hn : n.toNat = 0 := Int.toNat_of_nonpos (le_of_lt h)
  constructor <;> simp [zipper.step_back_n, hn, stepBackIter]

/-- Claim C10 witness: `step_back(-3)` on a fresh zipper succeeds and leaves
the state unchanged. -/
theorem c10_step_back_negative_witness :
    zipper.step_back_n (zipper.mk (node.mk (1 : Int) []) []) (-3) =
      Except.ok (zipper.mk (node.mk (1 : Int) []) []) := by
  exact (c10_step_back_negative (zipper.mk (node.mk (1 : Int) []) []) (-3) (by decide)).1

/-- Claim C4: `can_step_back` holds exactly off the root; `step_back` fails
with CannotStepBack exactly at the root, leaving the state unchanged, and
otherwise moves the cursor to the parent of the current node (the position
one step closer to the root). -/
theorem c4_step_back_spec {α : Type} (z : zipper α) :
    (zipper.can_step_back z = true ↔ z.path ≠ []) ∧
    (z.path = [] → zipper.step_back z = Except.error (zerror.cannotStepBack, z)) ∧
    (z.path ≠ [] → zipper.step_back z = Except.ok ⟨z.root, z.path.dropLast⟩) := by
  obtain ⟨r, p⟩ := z
  cases p <;> simp [zipper.can_step_back, zipper.step_back]

/-- Claim C4 witness: away from the root `step_back` moves to the parent; on
a fresh zipper it fails with CannotStepBack and the state is unchanged. -/
theorem c4_step_back_spec_witness :
    zipper.step_back (zipper.mk (node.mk (5 : Int) [node.mk 7 []]) [0]) =
      Except.ok (zipper.mk (node.mk (5 : Int) [node.mk 7 []]) []) ∧
    zipper.step_back (zipper.mk (node.mk (5 : Int) []) []) =
      Except.error (zerror.cannotStepBack, zipper.mk (node.mk (5 : Int) []) []) := by
  constructor
  · exact (c4_step_back_spec (zipper.mk (node.mk (5 : Int) [node.mk 7 []]) [0])).2.2 (by simp)
  · exact (c4_step_back_spec (zipper.mk (node.mk (5 : Int) []) [])).2.1 rfl

/-- Claim C5: `step_forward(branch)` fails with InvalidBranch exactly when the
index is outside [0, number of children) — the cursor carried by the error is
the unchanged state — and for an in-range index it moves the cursor to the
child at that position of the focused node. -/
theorem c5_step_forward_spec {α : Type} (z : zipper α) (b : Int) :
    (zipper.step_forward z b = Except.error (zerror.invalidBranch, z) ↔
      ¬ (0 ≤ b ∧ b < ((zipper.focusChildren z).length : Int))) ∧
    (0 ≤ b → b < ((zipper.focusChildren z).length : Int) →
      zipper.step_forward z b = Except.ok ⟨z.root, z.path ++ [b.toNat]⟩ ∧
      zipper.focus ⟨z.root, z.path ++ [b.toNat]⟩ = (zipper.focusChildren z)[b.toNat]?) := by
  constructor
  · unfold zipper.step_forward
    split_ifs with h1 h2
    · simp only [true_iff]
      omega
    · simp only [true_iff]
      omega
    · constructor
      · intro h
        exact absurd h (by simp)
      · intro h
        exact absurd (by constructor <;> omega) h
  · intro h0 hL
    have hok : zipper.step_forward z b = Except.ok ⟨z.root, z.path ++ [b.toNat]⟩ := by
      unfold zipper.step_forward
      split_ifs with h1 h2
      · omega
      · omega
      · rfl
    refine ⟨hok, ?_⟩
    show node.sub z.root (z.path ++ [b.toNat]) = (zipper.focusChildren z)[b.toNat]?
    rw [node.sub_append]
    cases hz : zipper.focus z with
    | none =>
      exfalso
      have : zipper.focusChildren z = [] := by
        unfold zipper.focusChildren
        rw [hz]
      rw [this] at hL
      simp at hL
      omega
    | some f =>
      have hc : zipper.focusChildren z = node.children f := by
        unfold zipper.focusChildren
        rw [hz]
      rw [hc]
      show (node.sub z.root z.path).bind (fun m => (node.children m)[b.toNat]?) = _
      have : node.sub z.root z.path = some f := hz
      rw [this]
      rfl

/-- Claim C5 witness: on a root with one child, index 0 is accepted and moves
the cursor onto that child; index 1 and index -1 are rejected with
InvalidBranch, leaving the state unchanged. -/
theorem c5_step_forward_spec_witness :
    zipper.step_forward (zipper.mk (node.mk (0 : Int) [node.mk 7 []]) []) 0 =
      Except.ok (zipper.mk (node.mk (0 : Int) [node.mk 7 []]) [0]) ∧
    zipper.focus (zipper.mk (node.mk (0 : Int) [node.mk 7 []]) [0]) = some (node.mk 7 []) ∧
    zipper.step_forward (zipper.mk (node.mk (0 : Int) [node.mk 7 []]) []) (-1) =
      Except.error (zerror.invalidBranch, zipper.mk (node.mk (0 : Int) [node.mk 7 []]) []) := by
  refine ⟨?_, ?_, ?_⟩
  · exact ((c5_step_forward_spec (zipper.mk (node.mk (0 : Int) [node.mk 7 []]) []) 0).2
      (by decide) (by decide)).1
  · exact ((c5_step_forward_spec (zipper.mk (node.mk (0 : Int) [node.mk 7 []]) []) 0).2
      (by decide) (by decide)).2
  · exact (c5_step_forward_spec (zipper.mk (node.mk (0 : Int) [node.mk 7 []]) []) (-1)).1.mpr
      (by decide)

/-- Claim C6: from any valid state, `entre_new_branch(v)` followed by
`step_back()` succeeds and puts the cursor back on the node it was at before
— same position in the (grown) tree, same value, same children except for one
appended child — and that node's last child carries the value `v`. -/
theorem c6_enter_then_step_back {α : Type} (z : zipper α) (v : α)
    (h : zipper.valid z = true) :
    ∃ f g, zipper.focus z = some f ∧
      zipper.step_back (zipper.entre_new_branch z v) =
        Except.ok ⟨node.appendAt z.root z.path v, z.path⟩ ∧
      zipper.focus ⟨node.appendAt z.root z.path v, z.path⟩ = some g ∧
      node.value g = node.value f ∧
      node.children g = node.children f ++ [node.mk v []] ∧
      ((node.children g).getLast?).map node.value = some v := by
  have hf : ∃ f, zipper.focus z = some f := by
    unfold zipper.valid at h
    cases hz : zipper.focus z with
    | none => rw [hz] at h; cases h
    | some f => exact ⟨f, rfl⟩
  obtain ⟨f, hz⟩ := hf
  refine ⟨f, node.mk (node.value f) (node.children f ++ [node.mk v []]), hz, ?_, ?_, rfl, rfl, ?_⟩
  · unfold zipper.step_back zipper.entre_new_branch zipper.can_step_back
    rw [snoc_isEmpty_false]
    simp
  · exact node.sub_appendAt v z.path z.root f hz
  · simp [node.children, List.getLast?_concat, node.value]

/-- Claim C6 witness: on a fresh zipper holding 0, `entre_new_branch(9)` then
`step_back()` returns the cursor to the root, which now has the single child 9. -/
theorem c6_enter_then_step_back_witness :
    zipper.step_back (zipper.entre_new_branch (zipper.mk (node.mk (0 : Int) []) []) 9) =
      Except.ok (zipper.mk (node.mk (0 : Int) [node.mk 9 []]) []) ∧
    zipper.focus (zipper.mk (node.mk (0 : Int) [node.mk 9 []]) []) =
      some (node.mk 0 [node.mk 9 []]) := by
  obtain ⟨f, g, hz, hb, hg, hv, hc, hl⟩ :=
    c6_enter_then_step_back (zipper.mk (node.mk (0 : Int) []) []) 9 (by rfl)
  exact ⟨hb, rfl⟩

/-- Claim C7 (code bug exhibit): the runtime loop of `fold_children`, taken
in isolation, does realize the claimed behavior — on the zipper it is the
left fold of the fold function over the focused node's child values from the
initial accumulator, and with children 1, 2, 3, 4 summing from 0 gives 10.
In the source, however, this loop is unreachable for exactly such value-level
callbacks: the preceding `decltype(f(children[0], init))` applies the
callback to a child node, so the claim's own instance `(v, acc) → v + acc`
fails to instantiate (see the comment on `node.fold_children`). -/
theorem c7_fold_children_left_fold :
    (∀ (α β : Type) (z : zipper α) (f : α → β → β) (init : β),
      zipper.fold_children z f init =
        ((zipper.focusChildren z).map node.value).foldl (fun acc x => f x acc) init) ∧
    zipper.fold_children
      (zipper.mk (node.mk (0 : Int) [node.mk 1 [], node.mk 2 [], node.mk 3 [], node.mk 4 []]) [])
      (fun v acc => v + acc) (0 : Int) = 10 := by
  constructor
  · intro α β z f init
    unfold zipper.fold_children zipper.focusChildren
    cases hz : zipper.focus z with
    | none => simp
    | some n => simp [node.fold_children, List.foldl_map]
  · rfl

theorem printTree_eq_spec_bounded {α : Type} (sh : α → String) :
    ∀ k : Nat,
      (∀ (n : node α) (d : Nat), sizeOf n ≤ k →
        node.printTree sh n d = concatAll ((node.preorderSpec n d).map (fmtLine sh))) ∧
      (∀ (cs : List (node α)) (d : Nat), sizeOf cs ≤ k →
        node.printTreeList sh cs d =
          concatAll ((node.preorderSpecList cs d).map (fmtLine sh))) := by
  intro k
  induction k with
  | zero =>
    constructor
    · intro n d hn
      exfalso
      cases n with
      | mk v cs => simp at hn
    · intro cs d hcs
      exfalso
      cases cs with
      | nil => simp at hcs
      | cons c cs1 => simp at hcs
  | succ k ih =>
    constructor
    · intro n d hn
      cases n with
      | mk v cs =>
        have hcs : sizeOf cs ≤ k := by simp at hn; omega
        rw [show node.printTree sh (node.mk v cs) d =
          rightAlign (sh v) (d * 4) ++ lineEnd ++ node.printTreeList sh cs (d + 1) from rfl]
        rw [show node.preorderSpec (node.mk v cs) d =
          (d, v) :: node.preorderSpecList cs (d + 1) from rfl]
        rw [List.map_cons]
        rw [show concatAll (fmtLine sh (d, v) ::
              (node.preorderSpecList cs (d + 1)).map (fmtLine sh)) =
            fmtLine sh (d, v) ++
              concatAll ((node.preorderSpecList cs (d + 1)).map (fmtLine sh)) from rfl]
        rw [ih.2 cs (d + 1) hcs]
        rfl
    · intro cs d hcs
      cases cs with
      | nil => rfl
      | cons c cs1 =>
        have hc : sizeOf c ≤ k := by simp at hcs; omega
        have hc1 : sizeOf cs1 ≤ k := by simp at hcs; omega
        rw [show node.printTreeList sh (c :: cs1) d =
          node.printTree sh c d ++ node.printTreeList sh cs1 d from rfl]
        rw [show node.preorderSpecList (c :: cs1) d =
          node.preorderSpec c d ++ node.preorderSpecList cs1 d from rfl]
        rw [List.map_append, concatAll_append]
        rw [ih.1 c d hc, ih.2 cs1 d hc1]

/-- Claim C9: the pretty-printer output is exactly the pre-order list of
nodes, each rendered as its value right-aligned in a field of depth × 4
characters followed by the line terminator; the root is at depth 0, where the
field width 0 adds no padding. -/
theorem c9_printTree_preorder {α : Type} (sh : α → String) (z : zipper α) :
    zipper.printTree z sh = printTreeSpec sh z.root ∧
    rightAlign (sh (node.value z.root)) (0 * 4) = sh (node.value z.root) := by
  constructor
  · exact (printTree_eq_spec_bounded sh (sizeOf z.root)).1 z.root 0 le_rfl
  · simp [rightAlign]
